import Mathlib

/-!
# Verification of the service-data harvesting pipeline

Shallow embedding of the resilient harvesting core of the `service-data`
repository (Python):

* `src/scraper-inmobiliario/src/scrapers/scraper_somma_nunoa.py` —
  the fetch-strategy escalator (`_requests_fetch`, `_cloudscraper_fetch`,
  `_playwright_fetch`, `_fetch_html`) and its retry configuration.
* `src/src/scrapers/scraper_assetplan.py` — the pagination walker
  (`scrape_assetplan`'s main loop), the per-item detail enrichment,
  the page-URL construction, and the output artifacts.

Network effects are modelled by environments: a listing-page environment
`Nat → FetchOut` mapping a page index to the outcome of `session.get` on
that page's URL, and a detail environment `String → FetchOut` mapping a
detail link to the outcome of its fetch.  An exception raised by the
underlying HTTP library is the `FetchOut.exn` constructor; a completed
HTTP response carries its status code and body text.
-/

namespace Scraper

/-! ## Fetch failures and tier escalation (`scraper_somma_nunoa.py`) -/

/-- Classified failure of one fetch tier.  `netError`/`timeoutErr` model
`requests.ConnectionError`/`requests.Timeout` (not subclasses of
`requests.HTTPError`); `httpError s` models `requests.HTTPError` raised with a
response of status `s` (either the explicit 403 raise or
`raise_for_status`). -/
inductive FetchFailure where
  | netError
  | timeoutErr
  | httpError (status : Nat)
deriving DecidableEq, Repr

/-- Result of a raw HTTP interaction: an exception from the transport layer,
or a completed response with a status code and body text. -/
inductive RawResp where
  | exn (e : FetchFailure)
  | resp (status : Nat) (body : String)
deriving DecidableEq, Repr

/-- The three fetch tiers of the escalator. -/
inductive Tier where
  | plain
  | stealth
  | browser
deriving DecidableEq, Repr

/-- `_requests_fetch` (tier 1): given the final transport outcome `r` of
`ses.get` (after the session's automatic retries), it raises the transport
exception, raises `HTTPError` on status 403 explicitly, raises via
`raise_for_status` on any other 4xx/5xx, and otherwise returns the body. -/
def requests_fetch (r : RawResp) : Except FetchFailure String :=
  match r with
  | .exn e => .error e
  | .resp status body =>
    if status = 403 then .error (.httpError 403)
    else if 400 ≤ status ∧ status ≤ 599 then .error (.httpError status)
    else .ok body

/-- `_cloudscraper_fetch` (tier 2): identical response handling to tier 1
(explicit 403 raise, then `raise_for_status`), over the cloudscraper
client's transport outcome. -/
def cloudscraper_fetch (r : RawResp) : Except FetchFailure String :=
  requests_fetch r

/-- `_playwright_fetch` (tier 3): returns the rendered page content without
any status-code check; transport/timeout errors raise. -/
def playwright_fetch (r : RawResp) : Except FetchFailure String :=
  match r with
  | .exn e => .error e
  | .resp _ body => .ok body

/-- `_fetch_html`: the escalator.  `t1`, `t2`, `t3` are the transport
outcomes the three tiers would observe.  Returns the fetch result together
with the list of tiers actually invoked.  Faithful to the source:
`use_browser` short-circuits to the browser tier alone; otherwise tier 1 is
tried, and only an `HTTPError` whose response has status 403 escalates to
tier 2 — and only when `use_cloudscraper` is set; every other failure (and a
403 with tier 2 disabled) is re-raised. -/
def fetch_html (use_browser use_cloudscraper : Bool) (t1 t2 t3 : RawResp) :
    Except FetchFailure String × List Tier :=
  if use_browser then (playwright_fetch t3, [.browser])
  else
    match requests_fetch t1 with
    | .ok s => (.ok s, [.plain])
    | .error e =>
      if e = .httpError 403 then
        if use_cloudscraper then (cloudscraper_fetch t2, [.plain, .stealth])
        else (.error e, [.plain])
      else (.error e, [.plain])

/-! ## Retry configuration (`_make_session` in both scrapers) -/

/-- The `urllib3.util.retry.Retry` configuration mounted on a session.
`backoff_tenths` records `backoff_factor` in tenths of a second. -/
structure RetryConfig where
  total : Nat
  backoff_tenths : Nat
  status_forcelist : List Nat
  allowed_methods : List String
deriving DecidableEq, Repr

/-- Retry policy of `scraper_somma_nunoa._make_session`:
`Retry(total=2, backoff_factor=0.5, status_forcelist=[429,500,502,503,504],
allowed_methods=["GET"])`. -/
def somma_retry : RetryConfig :=
  ⟨2, 5, [429, 500, 502, 503, 504], ["GET"]⟩

/-- Retry policy of `scraper_assetplan._make_session`:
`Retry(total=4, backoff_factor=0.8, status_forcelist=[429,500,502,503,504],
allowed_methods=["GET","HEAD"])`. -/
def assetplan_retry : RetryConfig :=
  ⟨4, 8, [429, 500, 502, 503, 504], ["GET", "HEAD"]⟩

/-- `urllib3` status-based retry decision: a completed response is retried
exactly when the request method is in `allowed_methods` and the status is in
`status_forcelist`. -/
def retries_on (cfg : RetryConfig) (method : String) (status : Nat) : Bool :=
  cfg.allowed_methods.contains method && cfg.status_forcelist.contains status

/-! ## Pagination walker (`scrape_assetplan` main loop)

The loop fetches page 1, 2, … and stops on: a transport exception or a
non-200 status (`break` at the two failure sites), a repeated page-content
hash (`seen_page_html_hash`), or a page with no listing cards.  The Python
`hash(resp.text[:10000])` has a finite range (CPython string hashes are
64-bit); we model it as an arbitrary function into `Fin n`. -/

/-- Outcome of fetching one listing page (`session.get(page_url)`):
an exception, or a response with status and body. -/
inductive FetchOut where
  | exn
  | resp (status : Nat) (body : String)
deriving DecidableEq, Repr

/-- Why the pagination loop stopped: the three `break` conditions of the
source (network error and non-200 status collapse to `fetchFailure`). -/
inductive Reason where
  | fetchFailure
  | repeatedPage
  | emptyPage
deriving DecidableEq, Repr

/-- Result of the walk: finished with a stop reason, or ran out of
modelling fuel (the source loop has no fuel; `fuelOut` only marks that the
chosen bound was too small). -/
inductive WalkOut (α : Type) where
  | done (items : List α) (reason : Reason)
  | fuelOut (items : List α)
deriving DecidableEq, Repr

/-- The items accumulated by a walk result. -/
def WalkOut.items {α : Type} : WalkOut α → List α
  | .done l _ => l
  | .fuelOut l => l

/-- The page signature: `hash(resp.text[:10000])` — the run's Python hash
applied to the first 10000 characters of the body. -/
def sigOf {n : Nat} (pyhash : String → Fin n) (body : String) : Fin n :=
  pyhash (String.mk (body.data.take 10000))

/-- One run of the `while True` pagination loop of `scrape_assetplan`,
with explicit state: current `page` index, the `seen_page_html_hash` set,
and the accumulated `properties` list.  `extract` is the per-page item
production (listing-card extraction plus enrichment, one item appended per
card), abstracted as in the spec's Extraction Adapter. -/
def walkAux {α : Type} {n : Nat} (env : Nat → FetchOut) (extract : String → List α)
    (pyhash : String → Fin n) :
    Nat → Nat → Finset (Fin n) → List α → WalkOut α
  | 0, _, _, acc => .fuelOut acc
  | fuel + 1, page, seen, acc =>
    match env page with
    | .exn => .done acc .fetchFailure
    | .resp status body =>
      if status ≠ 200 then .done acc .fetchFailure
      else if sigOf pyhash body ∈ seen then .done acc .repeatedPage
      else if (extract body).isEmpty then .done acc .emptyPage
      else
        walkAux env extract pyhash fuel (page + 1)
          (insert (sigOf pyhash body) seen) (acc ++ extract body)

/-- The full walk: page index starts at 1, empty seen-set, no items. -/
def walk {α : Type} {n : Nat} (env : Nat → FetchOut) (extract : String → List α)
    (pyhash : String → Fin n) (fuel : Nat) : WalkOut α :=
  walkAux env extract pyhash fuel 1 ∅ []

/-- `goodRun env extract pyhash page seen bs` says the pages
`page, page+1, …, page+|bs|-1` fetch successfully with bodies `bs`, each
produces at least one item, and each signature is fresh when reached —
i.e. the walk consumes all of them without stopping. -/
def goodRun {α : Type} {n : Nat} (env : Nat → FetchOut) (extract : String → List α)
    (pyhash : String → Fin n) (page : Nat) (seen : Finset (Fin n)) : List String → Prop
  | [] => True
  | b :: bs =>
    env page = .resp 200 b ∧ (extract b).isEmpty = false ∧ sigOf pyhash b ∉ seen ∧
      goodRun env extract pyhash (page + 1) (insert (sigOf pyhash b) seen) bs

/-- The seen-set after consuming the pages with bodies `bs`. -/
def seenAfter {n : Nat} (pyhash : String → Fin n) (seen : Finset (Fin n)) :
    List String → Finset (Fin n)
  | [] => seen
  | b :: bs => seenAfter pyhash (insert (sigOf pyhash b) seen) bs

/-! ## Detail enrichment (`scrape_assetplan`, per-card block)

For each listing card the source reads the title, address, card price and
detail link; when the link is non-empty it fetches the detail page inside a
`try`/`except`, and only a 200 response is parsed for `comodidades` and
`departamentos`; any exception or non-200 status leaves both lists empty
and the base record is appended regardless.  The detail parsing itself is
the spec's Detail Extraction Adapter; it is abstracted as a function that
either returns the parsed fields or fails (`none`, an adapter exception).
The wall-clock `scraped_at` timestamp field is metadata outside the model
and is omitted from the record. -/

/-- One `departamentos` entry parsed from a detail page. -/
structure Depto where
  dormitorios : String
  banos : String
  m2_utiles : String
  precio : String
  unidades_disponibles : String
  link : String
deriving DecidableEq, Repr

/-- The detail fields merged into an item: `detalles` (comodidades) and
`departamentos`. -/
structure Details where
  comodidades : List String
  departamentos : List Depto
deriving DecidableEq, Repr

/-- The detail fields before (or without) a successful detail fetch: both
lists start empty. -/
def emptyDetails : Details := ⟨[], []⟩

/-- One listing card's base fields, as extracted from the listing page
(`nombre`, `direccion`, card price, absolute detail link — empty string when
the card has no link). -/
structure Anuncio where
  nombre : String
  direccion : String
  precio : String
  link : String
deriving DecidableEq, Repr

/-- One output record of `scrape_assetplan` (the dict appended to
`properties`; the `scraped_at` wall-clock field is omitted). -/
structure Property where
  operador : String
  nombre : String
  direccion : String
  precio : String
  link : String
  comodidades : List String
  departamentos : List Depto
deriving DecidableEq, Repr

/-- The detail-enrichment step for one card: nothing is fetched for an
empty link; a transport exception (caught by the `except` around the block)
or a non-200 status leaves the detail fields empty; a 200 response is
parsed by the detail adapter `dx`, whose own failure (`none`) is also
caught by the same `except` and leaves the fields empty. -/
def enrichDetails (denv : String → FetchOut) (dx : String → Option Details)
    (link : String) : Details :=
  if link = "" then emptyDetails
  else
    match denv link with
    | .exn => emptyDetails
    | .resp status body =>
      if status = 200 then (dx body).getD emptyDetails else emptyDetails

/-- Assembling one output record from a card's base fields and detail
fields (the unconditional `properties.append` of the source). -/
def mkProperty (a : Anuncio) (d : Details) : Property :=
  ⟨"assetplan", a.nombre, a.direccion, a.precio, a.link, d.comodidades, d.departamentos⟩

/-- Enriching one card: base fields plus whatever the detail step
produced. -/
def enrichItem (denv : String → FetchOut) (dx : String → Option Details)
    (a : Anuncio) : Property :=
  mkProperty a (enrichDetails denv dx a.link)

/-- The per-page card loop: one record is appended per card, in card
order. -/
def processCards (denv : String → FetchOut) (dx : String → Option Details)
    (cards : List Anuncio) : List Property :=
  cards.map (enrichItem denv dx)

/-- The per-page item production of `scrape_assetplan`: extract the listing
cards, then enrich each. -/
def assetplanExtract (denv : String → FetchOut) (dx : String → Option Details)
    (xc : String → List Anuncio) : String → List Property :=
  fun body => processCards denv dx (xc body)

/-- The enrichment of card `a` fails: it has a detail link, and the fetch
raises, returns a non-200 status, or returns a 200 whose parsing fails. -/
def enrichFails (denv : String → FetchOut) (dx : String → Option Details)
    (a : Anuncio) : Prop :=
  a.link ≠ "" ∧
    (denv a.link = .exn ∨
      ∃ status body, denv a.link = .resp status body ∧
        (status ≠ 200 ∨ dx body = none))

/-! ## Timing/event trace of the assetplan loop

The same loop as `walkAux`, instrumented with the observable network and
sleep events in source order: the listing-page `session.get`, each detail
`session.get` (issued back to back, one per card with a non-empty link, with
no sleep between them), and the fixed `time.sleep(0.8)` after `page += 1`.
Durations are in milliseconds. -/

/-- An observable event of the harvesting loop. -/
inductive Ev where
  | pageFetch (page : Nat)
  | detailFetch (link : String)
  | sleepFixed (ms : Nat)
  | sleepUniform (loMs hiMs : Nat)
deriving DecidableEq, Repr

/-- Detail events of one card: exactly one detail fetch when the card has a
link, nothing otherwise — and no sleep. -/
def cardEvents (a : Anuncio) : List Ev :=
  if a.link = "" then [] else [.detailFetch a.link]

/-- Event trace of the pagination loop (same control flow as `walkAux`,
with `extract` refined into card extraction `xc`; the items appended per
page are `processCards` of the page's cards, whose emptiness coincides with
the `if not anuncios: break` check). -/
def walkEvents {n : Nat} (env : Nat → FetchOut) (xc : String → List Anuncio)
    (pyhash : String → Fin n) :
    Nat → Nat → Finset (Fin n) → List Ev
  | 0, _, _ => []
  | fuel + 1, page, seen =>
    .pageFetch page ::
      match env page with
      | .exn => []
      | .resp status body =>
        if status ≠ 200 then []
        else if sigOf pyhash body ∈ seen then []
        else if (xc body).isEmpty then []
        else
          (xc body).flatMap cardEvents ++
            .sleepFixed 800 ::
              walkEvents env xc pyhash fuel (page + 1) (insert (sigOf pyhash body) seen)

/-- Whether an event is a detail-page fetch. -/
def Ev.isDetail : Ev → Bool
  | .detailFetch _ => true
  | _ => false

/-- Whether an event is a randomized (bounded-uniform) sleep. -/
def Ev.isUniformSleep : Ev → Bool
  | .sleepUniform _ _ => true
  | _ => false

/-- Formalisation of claim C9's property on a trace: between any two
consecutive detail fetches (no other detail fetch in between) there is a
randomized bounded-uniform sleep. -/
def uniformDelayBetweenDetails (tr : List Ev) : Prop :=
  ∀ i j : Fin tr.length, i.val < j.val →
    (tr.get i).isDetail = true → (tr.get j).isDetail = true →
    (∀ k : Fin tr.length, i.val < k.val → k.val < j.val →
      (tr.get k).isDetail = false) →
    ∃ k : Fin tr.length, i.val < k.val ∧ k.val < j.val ∧
      (tr.get k).isUniformSleep = true

instance (tr : List Ev) : Decidable (uniformDelayBetweenDetails tr) := by
  unfold uniformDelayBetweenDetails
  infer_instance

/-! ## Page-URL construction (`scrape_assetplan`, lines 41–54)

```python
if "page=" in url:
    base_url = re.sub(r"page=\d+", "page={}", url)
else:
    base_url = url + ("&page={}" if "?" in url else "?page={}")
...
page_url = base_url.format(page)
```

Strings are modelled as their character lists.  `re.sub` scans left to
right, replacing each non-overlapping match of `page=` followed by one or
more ASCII digits (URLs are ASCII; the Unicode digits also matched by
Python's `\d` are immaterial here).  `str.format` with a single positional
argument substitutes exactly one `\x7b\x7d` placeholder and raises
(modelled as `none`) on any further brace field or stray brace.  The
scanners are defined with an explicit fuel argument (instantiated with the
input length, which every step strictly decreases) so that they stay
kernel-computable. -/

/-- The characters of `"page="`. -/
def pageNeedle : List Char := ['p', 'a', 'g', 'e', '=']

/-- The characters of the `format` placeholder. -/
def placeholder : List Char := ['\x7b', '\x7d']

/-- Is the character an opening or closing brace? -/
def isBrace (c : Char) : Bool := c == '\x7b' || c == '\x7d'

/-- Python `sub in s` on character lists: `needle` matches at the current
position or somewhere in the tail. -/
def containsList (hay needle : List Char) : Bool :=
  needle.isPrefixOf hay ||
    match hay with
    | [] => false
    | _ :: t => containsList t needle

/-- Fueled scanner for `re.sub(r"page=\d+", "page={}", …)`: at each
position, a match of `page=` followed by at least one digit is replaced by
`page=` and the placeholder, the matched digits are skipped, and scanning
resumes; otherwise the character is copied.  Fuel only bounds the
recursion; every step strictly consumes input. -/
def pageDigitsSubF : Nat → List Char → List Char
  | 0, l => l
  | _ + 1, [] => []
  | fuel + 1, c :: rest =>
    if pageNeedle.isPrefixOf (c :: rest) then
      match (c :: rest).drop 5 with
      | d :: ds =>
        if d.isDigit then
          pageNeedle ++ placeholder ++
            pageDigitsSubF fuel ((d :: ds).dropWhile Char.isDigit)
        else c :: pageDigitsSubF fuel rest
      | [] => c :: pageDigitsSubF fuel rest
    else c :: pageDigitsSubF fuel rest

/-- `re.sub(r"page=\d+", "page={}", l)`. -/
def pageDigitsSub (l : List Char) : List Char := pageDigitsSubF l.length l

/-- `template.format(arg)` with one positional argument: substitutes the
single `\x7b\x7d` placeholder; a second field or any stray brace raises
(`none`); a template with no field is returned unchanged. -/
def formatOne : List Char → List Char → Option (List Char)
  | [], _ => some []
  | c :: rest, arg =>
    if c == '\x7b' then
      match rest with
      | [] => none
      | c2 :: rest2 =>
        if c2 == '\x7d' then
          if rest2.any isBrace then none else some (arg ++ rest2)
        else none
    else if c == '\x7d' then none
    else (formatOne rest arg).map (fun t => c :: t)

/-- `base_url` construction of `scrape_assetplan`. -/
def buildBase (url : List Char) : List Char :=
  if containsList url pageNeedle then pageDigitsSub url
  else if containsList url ['?'] then url ++ '&' :: (pageNeedle ++ placeholder)
  else url ++ '?' :: (pageNeedle ++ placeholder)

/-- `base_url.format(page)`: the URL requested for page index `p`
(`none` models the `format` call raising). -/
def pageUrlL (url : List Char) (p : Nat) : Option (List Char) :=
  formatOne (buildBase url) (Nat.repr p).data

/-- String-level wrapper for the page-URL construction. -/
def pageUrl (url : String) (p : Nat) : Option String :=
  (pageUrlL url.data p).map String.mk

/-! ### Claim-side formalisation of the C5 wording

The claim speaks of a `page=` *query parameter*: the query string (after
the first `?`) split on `&`, with a parameter whose name is `page`.  The
following definitions formalise that wording, for comparison with the
code's substring-based construction. -/

/-- Split at the first `?`: the part before it and, when present, the
query string after it. -/
def breakAtQ : List Char → List Char × Option (List Char)
  | [] => ([], none)
  | c :: rest =>
    if c == '?' then ([], some rest)
    else
      match breakAtQ rest with
      | (a, b) => (c :: a, b)

/-- Split a query string on `&` into its parameters. -/
def splitOnAmp : List Char → List (List Char)
  | [] => [[]]
  | c :: rest =>
    if c == '&' then [] :: splitOnAmp rest
    else
      match splitOnAmp rest with
      | [] => [[c]]
      | g :: gs => (c :: g) :: gs

/-- Rejoin parameters with `&`. -/
def joinAmp (ps : List (List Char)) : List Char := List.intercalate ['&'] ps

/-- The page-URL construction as claim C5 words it: if the URL has a
`page=` query parameter, replace that parameter's value by `p` and keep
every other parameter unchanged; otherwise append `page=p` with `&` when a
query string exists and `?` otherwise. -/
def specPageUrl (url : List Char) (p : Nat) : List Char :=
  match breakAtQ url with
  | (_, none) => url ++ '?' :: (pageNeedle ++ (Nat.repr p).data)
  | (path, some q) =>
    if (splitOnAmp q).any (fun par => pageNeedle.isPrefixOf par) then
      path ++ '?' :: joinAmp ((splitOnAmp q).map (fun par =>
        if pageNeedle.isPrefixOf par then pageNeedle ++ (Nat.repr p).data else par))
    else url ++ '&' :: (pageNeedle ++ (Nat.repr p).data)

/-- Claim C5 as stated: the code's page-URL construction always produces
the URL described by the claim's wording. -/
def claimC5 (url : String) (p : Nat) : Prop :=
  pageUrl url p = some (String.mk (specPageUrl url.data p))

instance (url : String) (p : Nat) : Decidable (claimC5 url p) := by
  unfold claimC5
  infer_instance

/-! ## Output artifacts (`scrape_assetplan`, lines 226–244)

```python
json_output = output_path.replace(".txt", ".json")
...json.dump(properties, f,...)
jsonl_output = output_path.replace(".txt", ".jsonl")
...one json.dumps(item) per line...
```

Serialization is the spec's external Record Writer; an artifact is modelled
as its path together with the ordered record list it serializes (the JSON
array and the JSONL lines are both written by iterating `properties` in
order). -/

/-- The characters of `".txt"`. -/
def txtExt : List Char := ['.', 't', 'x', 't']

/-- Fueled scanner for Python `str.replace(".txt", t)`: leftmost,
non-overlapping, replaces every occurrence.  Fuel only bounds the
recursion; every step strictly consumes input. -/
def replaceTxtF (t : List Char) : Nat → List Char → List Char
  | 0, l => l
  | _ + 1, [] => []
  | fuel + 1, c :: rest =>
    if txtExt.isPrefixOf (c :: rest) then t ++ replaceTxtF t fuel ((c :: rest).drop 4)
    else c :: replaceTxtF t fuel rest

/-- `l.replace(".txt", t)`. -/
def replaceTxt (t : List Char) (l : List Char) : List Char := replaceTxtF t l.length l

/-- `output_path.replace(".txt", ".json")`. -/
def jsonPath (p : String) : String := String.mk (replaceTxt ".json".data p.data)

/-- `output_path.replace(".txt", ".jsonl")`. -/
def jsonlPath (p : String) : String := String.mk (replaceTxt ".jsonl".data p.data)

/-- The artifacts a completed run writes, in write order: the JSON array
and then the JSONL lines, both holding the accumulated records in
accumulation order. -/
def writeOutputs {α : Type} (p : String) (props : List α) : List (String × List α) :=
  [(jsonPath p, props), (jsonlPath p, props)]

/-- Claim C10 as stated, for output path `p` and collected records
`props`: the two artifacts are written at `p` with `".txt"` replaced by
`".json"` / `".jsonl"`, both hold exactly the same records in the same
order, and the file named by `p` itself is never written. -/
def claimC10 {α : Type} [DecidableEq α] (p : String) (props : List α) : Prop :=
  (writeOutputs p props).map Prod.fst = [jsonPath p, jsonlPath p] ∧
    (∀ e ∈ writeOutputs p props, e.2 = props) ∧
    ∀ e ∈ writeOutputs p props, e.1 ≠ p

instance {α : Type} [DecidableEq α] (p : String) (props : List α) :
    Decidable (claimC10 p props) := by
  unfold claimC10
  infer_instance

/-- Characters free of braces (so `format` treats them as literal text). -/
def braceFree (l : List Char) : Bool := l.all (fun c => !(isBrace c))

/-- No position inside `l` (a strict suffix of the scanned text followed by
`tail`) starts a match of `needle`: the scanner walks through all of `l`
without firing. -/
def noMatchStart (needle : List Char) : List Char → List Char → Bool
  | [], _ => true
  | c :: t, tail => !(needle.isPrefixOf (c :: (t ++ tail))) && noMatchStart needle t tail

/-- The first character, if any, is not a digit (the matched digit run is
maximal). -/
def headNotDigit : List Char → Bool
  | [] => true
  | c :: _ => !(c.isDigit)

/-! ## Properties -/

theorem mem_seenAfter {n : Nat} (pyhash : String → Fin n) (x : Fin n) :
    ∀ (bs : List String) (seen : Finset (Fin n)),
      x ∈ seenAfter pyhash seen bs ↔ x ∈ seen ∨ ∃ b ∈ bs, sigOf pyhash b = x := by
  intro bs
  induction bs with
  | nil => intro seen; simp [seenAfter]
  | cons b bs ih =>
    intro seen
    rw [seenAfter, ih]
    simp only [Finset.mem_insert, List.mem_cons]
    constructor
    · rintro (⟨h | h⟩ | ⟨b', hb', hx⟩)
      · exact Or.inr ⟨b, Or.inl rfl, h.symm⟩
      · exact Or.inl h
      · exact Or.inr ⟨b', Or.inr hb', hx⟩
    · rintro (h | ⟨b', hb' | hb', hx⟩)
      · exact Or.inl (Or.inr h)
      · exact Or.inl (Or.inl (by rw [← hx, hb']))
      · exact Or.inr ⟨b', hb', hx⟩

/-- Consuming a good prefix: the walk advances past all pages of `bs`,
appending each page's extracted items in order, and continues from page
`page + |bs|` with the enlarged seen-set. -/
theorem walkAux_goodRun {α : Type} {n : Nat} (env : Nat → FetchOut)
    (extract : String → List α) (pyhash : String → Fin n) :
    ∀ (bs : List String) (fuel page : Nat) (seen : Finset (Fin n)) (acc : List α),
      goodRun env extract pyhash page seen bs →
      walkAux env extract pyhash (bs.length + fuel) page seen acc =
        walkAux env extract pyhash fuel (page + bs.length)
          (seenAfter pyhash seen bs) (acc ++ bs.flatMap extract) := by
  intro bs
  induction bs with
  | nil => intro fuel page seen acc _; simp [seenAfter]
  | cons b bs ih =>
    intro fuel page seen acc hg
    obtain ⟨henv, hne, hfresh, hg'⟩ := hg
    have hlen : (b :: bs).length + fuel = (bs.length + fuel) + 1 := by
      simp [List.length_cons]; omega
    rw [hlen, walkAux, henv]
    simp only [if_neg (by simp : ¬(200 ≠ 200)), if_neg hfresh,
      hne, if_neg (by simp [hne] : ¬(extract b).isEmpty = true)]
    rw [ih fuel (page + 1) (insert (sigOf pyhash b) seen) (acc ++ extract b) hg']
    have hpage : page + 1 + bs.length = page + (b :: bs).length := by
      simp [List.length_cons]; omega
    rw [hpage]
    simp [seenAfter, List.flatMap_cons, List.append_assoc]

/-- The accumulated items thread through: running with accumulator `acc`
prepends `acc` to the items of the run started from the empty
accumulator. -/
theorem walkAux_items_acc {α : Type} {n : Nat} (env : Nat → FetchOut)
    (extract : String → List α) (pyhash : String → Fin n) :
    ∀ (fuel page : Nat) (seen : Finset (Fin n)) (acc : List α),
      (walkAux env extract pyhash fuel page seen acc).items =
        acc ++ (walkAux env extract pyhash fuel page seen []).items := by
  intro fuel
  induction fuel with
  | zero => intro page seen acc; simp [walkAux, WalkOut.items]
  | succ fuel ih =>
    intro page seen acc
    rw [walkAux, walkAux]
    match henv : env page with
    | .exn => simp [WalkOut.items]
    | .resp status body =>
      dsimp only
      by_cases h200 : status ≠ 200
      · simp [h200, WalkOut.items]
      · by_cases hseen : sigOf pyhash body ∈ seen
        · simp [h200, hseen, WalkOut.items]
        · by_cases hemp : (extract body).isEmpty
          · simp [h200, hseen, hemp, WalkOut.items]
          · rw [if_neg h200, if_neg hseen, if_neg hemp,
              ih (page + 1) (insert (sigOf pyhash body) seen) (acc ++ extract body),
              if_neg h200, if_neg hseen, if_neg hemp,
              ih (page + 1) (insert (sigOf pyhash body) seen) ([] ++ extract body)]
            simp [List.append_assoc]

/-- With fuel exceeding the number of page signatures the hash can still
produce (the seen-set lives in `Fin n` and grows by one fresh signature per
consumed page), the walk reaches one of its `break` sites. -/
theorem walkAux_done {α : Type} {n : Nat} (env : Nat → FetchOut)
    (extract : String → List α) (pyhash : String → Fin n) :
    ∀ (fuel page : Nat) (seen : Finset (Fin n)) (acc : List α), n < fuel + seen.card →
      ∃ items r, walkAux env extract pyhash fuel page seen acc = .done items r := by
  intro fuel
  induction fuel with
  | zero =>
    intro page seen acc hcard
    exact absurd (le_trans (Finset.card_le_univ seen) (le_of_eq (Fintype.card_fin n)))
      (by omega)
  | succ fuel ih =>
    intro page seen acc hcard
    rw [walkAux]
    match henv : env page with
    | .exn => exact ⟨acc, .fetchFailure, rfl⟩
    | .resp status body =>
      dsimp only
      by_cases h200 : status ≠ 200
      · exact ⟨acc, .fetchFailure, by rw [if_pos h200]⟩
      · rw [if_neg h200]
        by_cases hseen : sigOf pyhash body ∈ seen
        · exact ⟨acc, .repeatedPage, by rw [if_pos hseen]⟩
        · rw [if_neg hseen]
          by_cases hemp : (extract body).isEmpty = true
          · exact ⟨acc, .emptyPage, by rw [if_pos hemp]⟩
          · rw [if_neg hemp]
            exact ih (page + 1) (insert (sigOf pyhash body) seen) (acc ++ extract body)
              (by rw [Finset.card_insert_of_not_mem hseen]; omega)

theorem enrichDetails_of_fails (denv : String → FetchOut)
    (dx : String → Option Details) (a : Anuncio) (h : enrichFails denv dx a) :
    enrichDetails denv dx a.link = emptyDetails := by
  obtain ⟨hlink, hfail⟩ := h
  rw [enrichDetails, if_neg hlink]
  rcases hfail with hexn | ⟨status, body, hresp, hbad⟩
  · rw [hexn]
  · rw [hresp]
    rcases hbad with h200 | hnone
    · simp [if_neg h200]
    · by_cases h200 : status = 200
      · simp [h200, hnone, Option.getD]
      · simp [if_neg h200]

/-- No randomized sleep ever occurs in the assetplan loop's trace. -/
theorem sleepUniform_not_mem_walkEvents {n : Nat} (env : Nat → FetchOut)
    (xc : String → List Anuncio) (pyhash : String → Fin n) :
    ∀ (fuel page : Nat) (seen : Finset (Fin n)) (lo hi : Nat),
      Ev.sleepUniform lo hi ∉ walkEvents env xc pyhash fuel page seen := by
  intro fuel
  induction fuel with
  | zero => intro page seen lo hi; simp [walkEvents]
  | succ fuel ih =>
    intro page seen lo hi
    rw [walkEvents]
    match henv : env page with
    | .exn => simp
    | .resp status body =>
      dsimp only
      by_cases h200 : status ≠ 200
      · simp [if_pos h200]
      · rw [if_neg h200]
        by_cases hseen : sigOf pyhash body ∈ seen
        · simp [if_pos hseen]
        · rw [if_neg hseen]
          by_cases hemp : (xc body).isEmpty = true
          · rw [if_pos hemp]; simp
          · rw [if_neg hemp]
            intro hmem
            rcases List.mem_cons.mp hmem with hev | hmem'
            · exact Ev.noConfusion hev
            · rcases List.mem_append.mp hmem' with hcard | hrest
              · obtain ⟨a, _, hev⟩ := List.mem_flatMap.mp hcard
                simp [cardEvents] at hev
              · rcases List.mem_cons.mp hrest with hev | htail
                · exact Ev.noConfusion hev
                · exact ih (page + 1) (insert (sigOf pyhash body) seen) lo hi htail

theorem isPrefixOf_self_append (l t : List Char) : l.isPrefixOf (l ++ t) = true := by
  simp

theorem containsList_cons (c : Char) (t needle : List Char) :
    containsList (c :: t) needle =
      (needle.isPrefixOf (c :: t) || containsList t needle) := by
  rw [containsList.eq_def]

theorem containsList_of_append (a b : List Char) :
    containsList (a ++ (pageNeedle ++ b)) pageNeedle = true := by
  induction a with
  | nil => rw [List.nil_append, containsList.eq_def, isPrefixOf_self_append, Bool.true_or]
  | cons c a ih => rw [List.cons_append, containsList_cons, ih, Bool.or_true]

theorem pageDigitsSubF_no_occurrence (fuel : Nat) :
    ∀ l : List Char, containsList l pageNeedle = false → pageDigitsSubF fuel l = l := by
  induction fuel with
  | zero => intro l _; rfl
  | succ fuel ih =>
    intro l hnc
    match l with
    | [] => rfl
    | c :: rest =>
      rw [containsList_cons, Bool.or_eq_false_iff] at hnc
      rw [pageDigitsSubF, if_neg (by simp [hnc.1]), ih rest hnc.2]

theorem dropWhile_digits_append (ds post : List Char) (hds : ds.all Char.isDigit = true)
    (hpost : headNotDigit post = true) :
    (ds ++ post).dropWhile Char.isDigit = post := by
  induction ds with
  | nil =>
    match post with
    | [] => rfl
    | c :: t =>
      rw [headNotDigit, Bool.not_eq_true'] at hpost
      simp [List.dropWhile_cons, hpost]
  | cons d ds ih =>
    rw [List.all_cons, Bool.and_eq_true] at hds
    simp [List.dropWhile_cons, hds.1, ih hds.2]

theorem pageDigitsSubF_subst : ∀ (pre : List Char) (fuel : Nat) (ds post : List Char),
    (pre ++ (pageNeedle ++ (ds ++ post))).length ≤ fuel →
    noMatchStart pageNeedle pre (pageNeedle ++ (ds ++ post)) = true →
    ds ≠ [] → ds.all Char.isDigit = true → headNotDigit post = true →
    containsList post pageNeedle = false →
    pageDigitsSubF fuel (pre ++ (pageNeedle ++ (ds ++ post))) =
      pre ++ (pageNeedle ++ (placeholder ++ post)) := by
  intro pre
  induction pre with
  | nil =>
    intro fuel ds post hfuel _ hne hdig hhead hnc
    match ds with
    | [] => exact absurd rfl hne
    | d :: ds' =>
      match fuel with
      | 0 => simp [pageNeedle] at hfuel
      | fuel + 1 =>
        rw [List.all_cons, Bool.and_eq_true] at hdig
        have hdw : List.dropWhile Char.isDigit (d :: (ds' ++ post)) = post := by
          simpa [List.cons_append] using
            dropWhile_digits_append (d :: ds') post (by simp [hdig.1, hdig.2]) hhead
        show pageDigitsSubF (fuel + 1)
            ('p' :: 'a' :: 'g' :: 'e' :: '=' :: (d :: (ds' ++ post))) =
          'p' :: 'a' :: 'g' :: 'e' :: '=' :: (placeholder ++ post)
        rw [pageDigitsSubF]
        rw [if_pos (by simp [pageNeedle] : pageNeedle.isPrefixOf
          ('p' :: 'a' :: 'g' :: 'e' :: '=' :: (d :: (ds' ++ post))) = true)]
        simp only [List.drop_succ_cons, List.drop_zero]
        rw [if_pos hdig.1, hdw, pageDigitsSubF_no_occurrence fuel post hnc]
        simp [pageNeedle, placeholder]
  | cons c pre ih =>
    intro fuel ds post hfuel hnm hne hdig hhead hnc
    rw [noMatchStart, Bool.and_eq_true] at hnm
    obtain ⟨hhd, htl⟩ := hnm
    rw [Bool.not_eq_true'] at hhd
    match fuel with
    | 0 => simp at hfuel
    | fuel + 1 =>
      show pageDigitsSubF (fuel + 1) (c :: (pre ++ (pageNeedle ++ (ds ++ post)))) =
        c :: (pre ++ (pageNeedle ++ (placeholder ++ post)))
      rw [pageDigitsSubF, if_neg (by simp [hhd]),
        ih fuel ds post (by simp at hfuel ⊢; omega) htl hne hdig hhead hnc]

theorem formatOne_placeholder_append (arg : List Char) :
    ∀ (a rest : List Char), braceFree a = true →
      formatOne (a ++ (placeholder ++ rest)) arg =
        if rest.any isBrace then none else some (a ++ (arg ++ rest)) := by
  intro a
  induction a with
  | nil =>
    intro rest _
    rw [List.nil_append]
    show formatOne ('\x7b' :: '\x7d' :: rest) arg = _
    rw [formatOne]
    simp
  | cons c a ih =>
    intro rest hbf
    rw [braceFree, List.all_cons, Bool.and_eq_true] at hbf
    obtain ⟨hc, ha⟩ := hbf
    rw [Bool.not_eq_true', isBrace, Bool.or_eq_false_iff] at hc
    rw [List.cons_append, formatOne.eq_def]
    dsimp only
    rw [if_neg (by simp [hc.1]), if_neg (by simp [hc.2]), ih rest ha]
    by_cases hany : rest.any isBrace = true
    · rw [if_pos hany, if_pos hany]; rfl
    · rw [if_neg hany, if_neg hany]; rfl

theorem length_le_replaceTxtF (t : List Char) (ht : 4 ≤ t.length) :
    ∀ (fuel : Nat) (l : List Char), l.length ≤ (replaceTxtF t fuel l).length := by
  intro fuel
  induction fuel with
  | zero => intro l; rw [replaceTxtF]
  | succ fuel ih =>
    intro l
    match l with
    | [] => simp [replaceTxtF]
    | c :: rest =>
      rw [replaceTxtF]
      by_cases hp : txtExt.isPrefixOf (c :: rest) = true
      · rw [if_pos hp]
        have hlen : 4 ≤ (c :: rest).length := by
          have := (List.isPrefixOf_iff_prefix.mp hp).length_le
          simpa [txtExt] using this
        have hrec := ih ((c :: rest).drop 4)
        simp only [List.length_append, List.length_drop, List.length_cons] at hrec ⊢
        omega
      · rw [if_neg hp]
        have hrec := ih rest
        simp only [List.length_cons]
        omega

theorem length_lt_replaceTxtF (t : List Char) (ht : 5 ≤ t.length) :
    ∀ (fuel : Nat) (l : List Char), l.length ≤ fuel → containsList l txtExt = true →
      l.length < (replaceTxtF t fuel l).length := by
  intro fuel
  induction fuel with
  | zero =>
    intro l hl hc
    have hnil : l = [] := List.length_eq_zero.mp (Nat.le_zero.mp hl)
    subst hnil
    rw [containsList.eq_def] at hc
    simp [txtExt] at hc
  | succ fuel ih =>
    intro l hl hc
    match l with
    | [] =>
      rw [containsList.eq_def] at hc
      simp [txtExt] at hc
    | c :: rest =>
      rw [replaceTxtF]
      by_cases hp : txtExt.isPrefixOf (c :: rest) = true
      · rw [if_pos hp]
        have hlen : 4 ≤ (c :: rest).length := by
          have := (List.isPrefixOf_iff_prefix.mp hp).length_le
          simpa [txtExt] using this
        have hrec := length_le_replaceTxtF t (by omega) fuel ((c :: rest).drop 4)
        simp only [List.length_append, List.length_drop, List.length_cons] at hrec ⊢
        omega
      · rw [if_neg hp]
        rw [containsList_cons, Bool.or_eq_true] at hc
        have hc' : containsList rest txtExt = true := by
          rcases hc with h | h
          · exact absurd h hp
          · exact h
        have hrec := ih rest (by simp at hl; omega) hc'
        simp only [List.length_cons]
        omega

theorem replaceTxt_ne_self (t : List Char) (ht : 5 ≤ t.length) (l : List Char)
    (hc : containsList l txtExt = true) : replaceTxt t l ≠ l := by
  intro heq
  have hlt := length_lt_replaceTxtF t ht l.length l (le_refl _) hc
  unfold replaceTxt at heq
  rw [heq] at hlt
  omega

/-- C1: A terminal fetch failure of a listing page — a transport exception
or any non-200 (hence any non-2xx) response — at any point of the
pagination sequence ends the walk as a graceful `done` value (the walk is a
total function, no exception reaches the caller), preserving every item
collected from the earlier pages; and with all fallback tiers disabled a
tier-1 failure is the fetch's outcome, so in particular a first-page
failure (`bs = []`) yields the empty result sequence. -/
theorem fetch_failure_graceful {α : Type} {n : Nat} (env : Nat → FetchOut)
    (extract : String → List α) (pyhash : String → Fin n) (bs : List String) (f : Nat)
    (hgood : goodRun env extract pyhash 1 ∅ bs)
    (hfail : env (1 + bs.length) = .exn ∨
      ∃ status body, env (1 + bs.length) = .resp status body ∧ status ≠ 200) :
    walk env extract pyhash (bs.length + (f + 1)) =
      .done (bs.flatMap extract) .fetchFailure ∧
    ∀ (r1 t2 t3 : RawResp) (e : FetchFailure), requests_fetch r1 = .error e →
      (fetch_html false false r1 t2 t3).1 = .error e := by
  constructor
  · rw [walk, walkAux_goodRun env extract pyhash bs (f + 1) 1 ∅ [] hgood, List.nil_append,
      walkAux]
    rcases hfail with hexn | ⟨status, body, hresp, h200⟩
    · rw [hexn]
    · rw [hresp]
      dsimp only
      rw [if_pos h200]
  · intro r1 t2 t3 e herr
    simp only [fetch_html, Bool.false_eq_true, if_false, herr]
    by_cases h403 : e = .httpError 403
    · simp [h403]
    · simp [h403]

/-- Witness for C1: a run whose page 1 succeeds with one item and whose
page 2 fetch raises ends with exactly that one item and the
`fetchFailure` reason. -/
theorem fetch_failure_graceful_witness :
    walk (fun p => if p = 1 then FetchOut.resp 200 "A" else FetchOut.exn)
      (fun s => if s = "A" then [0] else []) (fun _ : String => (0 : Fin 1)) 2 =
      WalkOut.done [0] Reason.fetchFailure := by
  have h := fetch_failure_graceful
    (fun p => if p = 1 then FetchOut.resp 200 "A" else FetchOut.exn)
    (fun s => if s = "A" then [0] else []) (fun _ : String => (0 : Fin 1)) ["A"] 0
    ⟨rfl, rfl, Finset.not_mem_empty _, trivial⟩ (Or.inl rfl)
  simpa using h.1

/-- C2: When tier 1 fails `Blocked` (HTTPError 403): with tier 2 enabled
and succeeding, the fetch returns tier 2's content (trace `[plain,
stealth]`, no failure); with tier 2 disabled, the `Blocked` failure is the
result and only tier 1 was invoked; and in general the escalator never
invokes the stealth tier when it is disallowed nor the browser tier when it
is disallowed. -/
theorem blocked_escalation (t1 t2 t3 : RawResp) (c : String)
    (hblocked : requests_fetch t1 = .error (.httpError 403)) :
    (cloudscraper_fetch t2 = .ok c →
      fetch_html false true t1 t2 t3 = (.ok c, [.plain, .stealth])) ∧
    fetch_html false false t1 t2 t3 = (.error (.httpError 403), [.plain]) ∧
    (∀ (ub uc : Bool) (r1 r2 r3 : RawResp),
      (uc = false → Tier.stealth ∉ (fetch_html ub uc r1 r2 r3).2) ∧
      (ub = false → Tier.browser ∉ (fetch_html ub uc r1 r2 r3).2)) := by
  refine ⟨?_, ?_, ?_⟩
  · intro h2
    simp [fetch_html, hblocked, h2]
  · simp [fetch_html, hblocked]
  · intro ub uc r1 r2 r3
    constructor
    · rintro rfl
      rcases ub with _ | _
      · simp only [fetch_html, Bool.false_eq_true, if_false]
        match h : requests_fetch r1 with
        | .ok s => simp
        | .error e =>
          by_cases h403 : e = .httpError 403 <;> simp [h403]
      · simp [fetch_html]
    · rintro rfl
      rcases uc with _ | _ <;>
      · simp only [fetch_html, Bool.false_eq_true, if_false]
        match h : requests_fetch r1 with
        | .ok s => simp
        | .error e =>
          by_cases h403 : e = .httpError 403 <;> simp [h403]

/-- Witness for C2: a concrete 403 tier-1 response with a succeeding
stealth tier yields the stealth content and the `[plain, stealth]`
invocation trace. -/
theorem blocked_escalation_witness :
    fetch_html false true (.resp 403 "denied") (.resp 200 "html") (.exn .netError) =
      (.ok "html", [.plain, .stealth]) := by
  have h := blocked_escalation (.resp 403 "denied") (.resp 200 "html") (.exn .netError)
    "html" rfl
  exact h.1 rfl

/-- C3: When a fetched page's content hashes (over the first 10000
characters) to the signature of any previously consumed page of the same
run, the walk stops right after that fetch with reason `repeatedPage`,
emitting none of that page's items, whatever the extractor would have
produced from its body. -/
theorem repeated_page_stops {α : Type} {n : Nat} (env : Nat → FetchOut)
    (extract : String → List α) (pyhash : String → Fin n) (bs : List String) (f : Nat)
    (b : String) (hgood : goodRun env extract pyhash 1 ∅ bs)
    (henv : env (1 + bs.length) = .resp 200 b)
    (hrep : ∃ b' ∈ bs, sigOf pyhash b' = sigOf pyhash b) :
    walk env extract pyhash (bs.length + (f + 1)) =
      .done (bs.flatMap extract) .repeatedPage := by
  rw [walk, walkAux_goodRun env extract pyhash bs (f + 1) 1 ∅ [] hgood, List.nil_append,
    walkAux, henv]
  dsimp only
  rw [if_neg (by simp), if_pos ((mem_seenAfter pyhash _ bs ∅).mpr (Or.inr hrep))]

/-- Witness for C3: two consecutive byte-identical pages — page 2 repeats
page 1's body — stop the walk after the second fetch with the first page's
single item only, although the extractor would produce an item for page 2
as well. -/
theorem repeated_page_stops_witness :
    walk (fun _ => FetchOut.resp 200 "A") (fun s => if s = "A" then [0] else [])
      (fun _ : String => (0 : Fin 1)) 2 = WalkOut.done [0] Reason.repeatedPage := by
  have h := repeated_page_stops (fun _ => FetchOut.resp 200 "A")
    (fun s => if s = "A" then [0] else []) (fun _ : String => (0 : Fin 1)) ["A"] 0 "A"
    ⟨rfl, rfl, Finset.not_mem_empty _, trivial⟩ rfl ⟨"A", by simp, rfl⟩
  simpa using h

/-- C6: Every walk terminates — with fuel `n + 1` (one more than the
signature space the bounded hash can populate) the loop has provably
reached one of its `break` sites, and the result's reason is by
construction one of the three conditions (fetch failure, repeated page,
empty page); and there is no built-in page cap: a good prefix of any
length `|bs|` is consumed in full, the walk continuing from page
`1 + |bs|`. -/
theorem walk_terminates_three_reasons {α : Type} {n : Nat} (env : Nat → FetchOut)
    (extract : String → List α) (pyhash : String → Fin n) (bs : List String) (fuel : Nat) :
    (∃ items r, walk env extract pyhash (n + 1) = .done items r ∧
      (r = .fetchFailure ∨ r = .repeatedPage ∨ r = .emptyPage)) ∧
    (goodRun env extract pyhash 1 ∅ bs →
      walk env extract pyhash (bs.length + fuel) =
        walkAux env extract pyhash fuel (1 + bs.length) (seenAfter pyhash ∅ bs)
          (bs.flatMap extract)) := by
  constructor
  · obtain ⟨items, r, hr⟩ := walkAux_done env extract pyhash (n + 1) 1 ∅ []
      (by simp [Finset.card_empty])
    refine ⟨items, r, hr, ?_⟩
    rcases r with _ | _ | _
    · exact Or.inl rfl
    · exact Or.inr (Or.inl rfl)
    · exact Or.inr (Or.inr rfl)
  · intro hgood
    rw [walk, walkAux_goodRun env extract pyhash bs fuel 1 ∅ [] hgood, List.nil_append]

/-- Witness for C6: for a concrete two-page environment the walk with the
guaranteed fuel stops with reason `fetchFailure`, and the two-page good
prefix is consumed in full before the continuation runs. -/
theorem walk_terminates_three_reasons_witness :
    walk (fun p => if p = 1 then FetchOut.resp 200 "A"
        else if p = 2 then FetchOut.resp 200 "AB" else FetchOut.exn)
      (fun s => [s.length]) (fun s => if s = "A" then (0 : Fin 2) else 1) (2 + 1) =
      walkAux (fun p => if p = 1 then FetchOut.resp 200 "A"
          else if p = 2 then FetchOut.resp 200 "AB" else FetchOut.exn)
        (fun s => [s.length]) (fun s => if s = "A" then (0 : Fin 2) else 1) 1 (1 + 2)
        (seenAfter (fun s => if s = "A" then (0 : Fin 2) else 1) ∅ ["A", "AB"])
        (["A", "AB"].flatMap (fun s => [s.length])) := by
  have h := walk_terminates_three_reasons
    (fun p => if p = 1 then FetchOut.resp 200 "A"
      else if p = 2 then FetchOut.resp 200 "AB" else FetchOut.exn)
    (fun s => [s.length]) (fun s => if s = "A" then (0 : Fin 2) else 1) ["A", "AB"] 1
  exact h.2 (by refine ⟨rfl, rfl, Finset.not_mem_empty _, rfl, rfl, ?_, trivial⟩; decide)

/-- C7: Over any failure-free good prefix, the walk's emitted items are
exactly the concatenation, in page order, of each page's extractor output
in document order — no reordering, no per-item deduplication — followed by
whatever later pages contribute. -/
theorem order_preserved {α : Type} {n : Nat} (env : Nat → FetchOut)
    (extract : String → List α) (pyhash : String → Fin n) (bs : List String) (fuel : Nat)
    (hgood : goodRun env extract pyhash 1 ∅ bs) :
    (walk env extract pyhash (bs.length + fuel)).items =
      bs.flatMap extract ++
        (walkAux env extract pyhash fuel (1 + bs.length) (seenAfter pyhash ∅ bs)
          []).items := by
  rw [walk, walkAux_goodRun env extract pyhash bs fuel 1 ∅ [] hgood, List.nil_append,
    walkAux_items_acc]

/-- Witness for C7: a concrete two-page run whose pages yield `[10, 11]`
and `[20]` emits `[10, 11, 20]` — page order, document order within each
page. -/
theorem order_preserved_witness :
    (walk (fun p => if p = 1 then FetchOut.resp 200 "A"
        else if p = 2 then FetchOut.resp 200 "AB" else FetchOut.exn)
      (fun s => if s = "A" then [10, 11] else if s = "AB" then [20] else [])
      (fun s => if s = "A" then (0 : Fin 2) else 1) (2 + 1)).items =
      [10, 11, 20] ++
        (walkAux (fun p => if p = 1 then FetchOut.resp 200 "A"
            else if p = 2 then FetchOut.resp 200 "AB" else FetchOut.exn)
          (fun s => if s = "A" then [10, 11] else if s = "AB" then [20] else [])
          (fun s => if s = "A" then (0 : Fin 2) else 1) 1 (1 + 2)
          (seenAfter (fun s => if s = "A" then (0 : Fin 2) else 1) ∅ ["A", "AB"])
          []).items := by
  have h := order_preserved
    (fun p => if p = 1 then FetchOut.resp 200 "A"
      else if p = 2 then FetchOut.resp 200 "AB" else FetchOut.exn)
    (fun s => if s = "A" then [10, 11] else if s = "AB" then [20] else [])
    (fun s => if s = "A" then (0 : Fin 2) else 1) ["A", "AB"] 1
    (by refine ⟨rfl, rfl, Finset.not_mem_empty _, rfl, rfl, ?_, trivial⟩; decide)
  simpa using h

/-- C8: tier-1 automatic retries fire only for responses whose status is in
the transient force-list 429/500/502/503/504 and only for the idempotent
allowed methods (GET for the somma session, GET/HEAD for the assetplan
session); a 403 response is never retried, and at the escalator it is the
non-retriable `Blocked` classification that short-circuits to the stealth
tier. -/
theorem retry_policy :
    (∀ m : String, retries_on somma_retry m 403 = false ∧
      retries_on assetplan_retry m 403 = false) ∧
    (∀ (m : String) (s : Nat), retries_on somma_retry m s = true →
      (s = 429 ∨ s = 500 ∨ s = 502 ∨ s = 503 ∨ s = 504) ∧ m = "GET") ∧
    (∀ (m : String) (s : Nat), retries_on assetplan_retry m s = true →
      (s = 429 ∨ s = 500 ∨ s = 502 ∨ s = 503 ∨ s = 504) ∧ (m = "GET" ∨ m = "HEAD")) ∧
    (∀ (body : String) (t2 t3 : RawResp),
      requests_fetch (.resp 403 body) = .error (.httpError 403) ∧
      (fetch_html false true (.resp 403 body) t2 t3).2 = [.plain, .stealth]) := by
  refine ⟨?_, ?_, ?_, ?_⟩
  · intro m
    constructor <;> simp [retries_on, somma_retry, assetplan_retry]
  · intro m s h
    simp [retries_on, somma_retry] at h
    exact ⟨by tauto, by tauto⟩
  · intro m s h
    simp [retries_on, assetplan_retry] at h
    exact ⟨by tauto, by tauto⟩
  · intro body t2 t3
    constructor
    · simp [requests_fetch]
    · simp [fetch_html, requests_fetch]

/-- Witness for C8: a GET retried on 429 satisfies the force-list and
method constraints (via the somma branch of the policy). -/
theorem retry_policy_witness :
    (429 = 429 ∨ 429 = 500 ∨ 429 = 502 ∨ 429 = 503 ∨ 429 = 504) ∧ "GET" = "GET" :=
  retry_policy.2.1 "GET" 429 (by decide)

/-- C4: A fetch or extraction failure while enriching item `i` is isolated
to that item: the run appends one record per card regardless (no exception
escapes the per-item `try`/`except`), item `i` is emitted as its base
record with empty detail fields, every other item `j` is enriched
independently of `i`'s outcome, and over any good prefix the walk's final
output still contains each page's full enriched card list. -/
theorem enrich_isolated (denv : String → FetchOut) (dx : String → Option Details)
    (cards : List Anuncio) (i : Nat) (hi : i < cards.length)
    (hfail : enrichFails denv dx cards[i]) :
    (processCards denv dx cards).length = cards.length ∧
    (processCards denv dx cards)[i]? = some (mkProperty cards[i] emptyDetails) ∧
    (∀ j : Nat, (processCards denv dx cards)[j]? =
      (cards[j]?).map (enrichItem denv dx)) ∧
    (∀ {n : Nat} (env : Nat → FetchOut) (xc : String → List Anuncio)
      (pyhash : String → Fin n) (bs : List String) (fuel : Nat),
      goodRun env (assetplanExtract denv dx xc) pyhash 1 ∅ bs →
      (walk env (assetplanExtract denv dx xc) pyhash (bs.length + fuel)).items =
        bs.flatMap (fun body => processCards denv dx (xc body)) ++
          (walkAux env (assetplanExtract denv dx xc) pyhash fuel (1 + bs.length)
            (seenAfter pyhash ∅ bs) []).items) := by
  refine ⟨by rw [processCards, List.length_map], ?_, ?_, ?_⟩
  · rw [processCards, List.getElem?_map, List.getElem?_eq_getElem hi, Option.map_some',
      enrichItem, enrichDetails_of_fails denv dx _ hfail]
  · intro j
    rw [processCards, List.getElem?_map]
  · intro n env xc pyhash bs fuel hgood
    rw [walk, walkAux_goodRun env _ pyhash bs fuel 1 ∅ [] hgood, List.nil_append,
      walkAux_items_acc]
    rfl

/-- Witness for C4: three cards, the middle card's detail fetch raising —
it is emitted base-only with empty details while its neighbours are fully
enriched. -/
theorem enrich_isolated_witness :
    (processCards (fun l => if l = "L1" then FetchOut.exn else FetchOut.resp 200 "B")
        (fun b => if b = "B" then some ⟨["pool"], []⟩ else none)
        [⟨"n0", "d0", "p0", "L0"⟩, ⟨"n1", "d1", "p1", "L1"⟩,
          ⟨"n2", "d2", "p2", "L2"⟩])[1]? =
      some (mkProperty ⟨"n1", "d1", "p1", "L1"⟩ emptyDetails) := by
  have h := enrich_isolated
    (fun l => if l = "L1" then FetchOut.exn else FetchOut.resp 200 "B")
    (fun b => if b = "B" then some ⟨["pool"], []⟩ else none)
    [⟨"n0", "d0", "p0", "L0"⟩, ⟨"n1", "d1", "p1", "L1"⟩, ⟨"n2", "d2", "p2", "L2"⟩]
    1 (by decide) ⟨by decide, Or.inl rfl⟩
  exact h.2.1

/-- C9 counterexample: in a run whose single page carries two linked cards,
the two detail fetches are adjacent events — no sleep of any kind, in
particular no bounded-uniform randomized sleep, separates them, so the
claim "a randomized delay is inserted between consecutive detail fetches"
fails on this concrete run. -/
theorem detail_delay_claim_cex :
    ¬ uniformDelayBetweenDetails
      (walkEvents (fun p => if p = 1 then FetchOut.resp 200 "B" else FetchOut.exn)
        (fun b => if b = "B" then
          [⟨"n1", "d1", "p1", "L1"⟩, ⟨"n2", "d2", "p2", "L2"⟩] else [])
        (fun _ : String => (0 : Fin 1)) 2 1 ∅) := by
  decide

/-- C9 (amended): the assetplan loop inserts a fixed 0.8-second sleep
between consecutive page iterations (after a page's detail fetches, before
the next page fetch), and no randomized bounded-uniform delay occurs
anywhere in the loop — in particular none between consecutive detail
fetches, which are issued back to back. -/
theorem delay_amended {n : Nat} (env : Nat → FetchOut) (xc : String → List Anuncio)
    (pyhash : String → Fin n) (fuel page : Nat) (seen : Finset (Fin n)) (body : String)
    (henv : env page = .resp 200 body) (hfresh : sigOf pyhash body ∉ seen)
    (hne : (xc body).isEmpty = false) :
    walkEvents env xc pyhash (fuel + 1) page seen =
      .pageFetch page :: ((xc body).flatMap cardEvents ++
        .sleepFixed 800 ::
          walkEvents env xc pyhash fuel (page + 1) (insert (sigOf pyhash body) seen)) ∧
    (∀ (fuel2 page2 : Nat) (seen2 : Finset (Fin n)) (lo hi : Nat),
      Ev.sleepUniform lo hi ∉ walkEvents env xc pyhash fuel2 page2 seen2) := by
  constructor
  · rw [walkEvents, henv]
    dsimp only
    rw [if_neg (by simp), if_neg hfresh, if_neg (by simp [hne])]
  · exact fun fuel2 page2 seen2 lo hi =>
      sleepUniform_not_mem_walkEvents env xc pyhash fuel2 page2 seen2 lo hi

/-- Witness for C9 (amended): the concrete one-page run unfolds to the page
fetch, its two back-to-back detail fetches, and the fixed 800 ms sleep
before the next page fetch. -/
theorem delay_amended_witness :
    walkEvents (fun p => if p = 1 then FetchOut.resp 200 "B" else FetchOut.exn)
      (fun b => if b = "B" then
        [⟨"n1", "d1", "p1", "L1"⟩, ⟨"n2", "d2", "p2", "L2"⟩] else [])
      (fun _ : String => (0 : Fin 1)) 2 1 ∅ =
      Ev.pageFetch 1 ::
        (([(⟨"n1", "d1", "p1", "L1"⟩ : Anuncio), ⟨"n2", "d2", "p2", "L2"⟩].flatMap
            cardEvents) ++
          Ev.sleepFixed 800 ::
            walkEvents (fun p => if p = 1 then FetchOut.resp 200 "B" else FetchOut.exn)
              (fun b => if b = "B" then
                [⟨"n1", "d1", "p1", "L1"⟩, ⟨"n2", "d2", "p2", "L2"⟩] else [])
              (fun _ : String => (0 : Fin 1)) 1 2
              (insert (sigOf (fun _ : String => (0 : Fin 1)) "B") ∅)) := by
  have h := delay_amended (fun p => if p = 1 then FetchOut.resp 200 "B" else FetchOut.exn)
    (fun b => if b = "B" then
      [⟨"n1", "d1", "p1", "L1"⟩, ⟨"n2", "d2", "p2", "L2"⟩] else [])
    (fun _ : String => (0 : Fin 1)) 1 1 ∅ "B" rfl (Finset.not_mem_empty _) rfl
  simpa using h.1

/-- C10 counterexample: for the output path `"out"`, which contains no
`".txt"`, both `replace` calls leave the path unchanged, so the run writes
the file named by the output path itself — the claim's "the file named by P
itself is never written" is false at this input. -/
theorem artifact_claim_cex : ¬ claimC10 "out" ([] : List Nat) := by decide

/-- C10 (amended): the two artifacts hold exactly the same records in the
same order at the `replace`-derived paths, and — provided the output path
contains `".txt"`, as every configured path does — neither artifact path
equals the output path itself. -/
theorem artifacts_amended {α : Type} (p : String) (props : List α)
    (htxt : containsList p.data txtExt = true) :
    (writeOutputs p props).map Prod.fst = [jsonPath p, jsonlPath p] ∧
    (∀ e ∈ writeOutputs p props, e.2 = props) ∧
    (∀ e ∈ writeOutputs p props, e.1 ≠ p) := by
  have key : ∀ t : List Char, 5 ≤ t.length → String.mk (replaceTxt t p.data) ≠ p := by
    intro t ht h
    exact replaceTxt_ne_self t ht p.data htxt (congrArg String.data h)
  refine ⟨rfl, ?_, ?_⟩
  · intro e he
    simp only [writeOutputs, List.mem_cons, List.not_mem_nil, or_false] at he
    rcases he with rfl | rfl <;> rfl
  · intro e he
    simp only [writeOutputs, List.mem_cons, List.not_mem_nil, or_false] at he
    rcases he with rfl | rfl
    · exact key ".json".data (by decide)
    · exact key ".jsonl".data (by decide)

/-- Witness for C10 (amended): for the configured output path
`"data/raw/assetplan.txt"` neither artifact path collides with the output
path. -/
theorem artifacts_amended_witness :
    jsonPath "data/raw/assetplan.txt" ≠ "data/raw/assetplan.txt" ∧
    jsonlPath "data/raw/assetplan.txt" ≠ "data/raw/assetplan.txt" := by
  have h := artifacts_amended "data/raw/assetplan.txt" [1, 2] (by decide)
  exact ⟨h.2.2 (jsonPath "data/raw/assetplan.txt", [1, 2]) (by simp [writeOutputs]),
    h.2.2 (jsonlPath "data/raw/assetplan.txt", [1, 2]) (by simp [writeOutputs])⟩

/-- C5 counterexample: for the start URL `"https://x.cl/a?mypage=3"` —
which contains the substring `"page="` but no `page` query parameter — the
claim prescribes appending `&page=5`, while the code substitutes into the
`mypage` parameter, producing `"https://x.cl/a?mypage=5"`; the claim as
stated is false at this input. -/
theorem page_url_claim_cex : ¬ claimC5 "https://x.cl/a?mypage=3" 5 := by decide

/-- C5 (amended): the construction keys on the substring `"page="`, not on
a `page` query parameter.  If the URL contains no `"page="`, a `page=N`
parameter is appended with `&` when the URL has a `?` and with `?`
otherwise; if it contains a unique occurrence of `"page="` followed by a
maximal nonempty digit run, that run is replaced by `N` and everything
else is unchanged; in particular the assetplan start URL with `page=3`
requested at page 5 yields `page=5` with all other parameters intact. -/
theorem page_url_amended :
    (∀ (url : List Char) (p : Nat), containsList url pageNeedle = false →
      braceFree url = true →
      pageUrlL url p = some (url ++
        (if containsList url ['?'] then '&' else '?') ::
          (pageNeedle ++ (Nat.repr p).data))) ∧
    (∀ (pre ds post : List Char) (p : Nat),
      noMatchStart pageNeedle pre (pageNeedle ++ (ds ++ post)) = true →
      ds ≠ [] → ds.all Char.isDigit = true → headNotDigit post = true →
      containsList post pageNeedle = false →
      braceFree pre = true → braceFree post = true →
      pageUrlL (pre ++ (pageNeedle ++ (ds ++ post))) p =
        some (pre ++ (pageNeedle ++ ((Nat.repr p).data ++ post)))) ∧
    pageUrl "https://www.assetplan.cl/arriendo/departamento?page=3&servicioPro=1" 5 =
      some "https://www.assetplan.cl/arriendo/departamento?page=5&servicioPro=1" := by
  refine ⟨?_, ?_, by decide⟩
  · intro url p hnc hbf
    rw [pageUrlL, buildBase, if_neg (by simp [hnc])]
    by_cases hq : containsList url ['?'] = true
    · rw [if_pos hq, if_pos hq]
      have hbf2 : braceFree (url ++ '&' :: pageNeedle) = true := by
        rw [braceFree] at hbf ⊢
        simp only [List.all_append, List.all_cons, hbf, Bool.true_and]
        decide
      have hF := formatOne_placeholder_append (Nat.repr p).data
        (url ++ '&' :: pageNeedle) [] hbf2
      simp only [List.any_nil, Bool.false_eq_true, if_false, List.append_nil] at hF
      rw [show url ++ '&' :: (pageNeedle ++ placeholder) =
        (url ++ '&' :: pageNeedle) ++ placeholder by simp, hF]
      simp
    · rw [if_neg hq, if_neg hq]
      have hbf2 : braceFree (url ++ '?' :: pageNeedle) = true := by
        rw [braceFree] at hbf ⊢
        simp only [List.all_append, List.all_cons, hbf, Bool.true_and]
        decide
      have hF := formatOne_placeholder_append (Nat.repr p).data
        (url ++ '?' :: pageNeedle) [] hbf2
      simp only [List.any_nil, Bool.false_eq_true, if_false, List.append_nil] at hF
      rw [show url ++ '?' :: (pageNeedle ++ placeholder) =
        (url ++ '?' :: pageNeedle) ++ placeholder by simp, hF]
      simp
  · intro pre ds post p hnm hne hdig hhead hnc hbfpre hbfpost
    rw [pageUrlL, buildBase, if_pos (containsList_of_append pre (ds ++ post))]
    rw [show pageDigitsSub (pre ++ (pageNeedle ++ (ds ++ post))) =
      pageDigitsSubF (pre ++ (pageNeedle ++ (ds ++ post))).length
        (pre ++ (pageNeedle ++ (ds ++ post))) from rfl]
    rw [pageDigitsSubF_subst pre _ ds post (le_refl _) hnm hne hdig hhead hnc]
    have hbf2 : braceFree (pre ++ pageNeedle) = true := by
      rw [braceFree] at hbfpre ⊢
      simp only [List.all_append, hbfpre, Bool.true_and]
      decide
    have hany : post.any isBrace = false := by
      rw [braceFree] at hbfpost
      rw [List.any_eq_false]
      intro x hx
      have := List.all_eq_true.mp hbfpost x hx
      simpa using this
    have hF := formatOne_placeholder_append (Nat.repr p).data (pre ++ pageNeedle)
      post hbf2
    rw [hany] at hF
    simp only [Bool.false_eq_true, if_false, List.append_assoc] at hF
    rw [hF]

/-- Witness for C5 (amended): a URL without `"page="` and without a query
string gets `?page=5` appended. -/
theorem page_url_amended_witness :
    pageUrlL ("https://x.cl/a").data 5 =
      some (("https://x.cl/a").data ++
        (if containsList ("https://x.cl/a").data ['?'] then '&' else '?') ::
          (pageNeedle ++ (Nat.repr 5).data)) :=
  page_url_amended.1 ("https://x.cl/a").data 5 (by decide) (by decide)

end Scraper
